import Mathlib

/-!
Verification development for `lib/types/hosts.go`: the host-pattern set used
for host-based access control (pattern validation, trie-backed `Match`,
address parsing, and the JSON adapter `NullHosts`).

Conventions of the embedding:
* Go strings are Lean `String`s (operated on through their `List Char` data).
* Go `int` is `Int`; byte values are `Nat`s in `[0, 255]`.
* A Go `net.IP` is a byte list `List Nat`; the `nil` IP is `[]`.
* Fallible Go functions return `Except String _`; error messages reproduce the
  message text from the source where a claim depends on it (the
  "conflicting ports" and "invalid host pattern" messages), and are short
  stand-ins for Go stdlib error text otherwise.
* Go's `map[string]T` is an association list `List (String × T)` with
  overwrite-on-insert semantics (`mapInsert`); Go's nondeterministic map
  iteration order becomes list order, which is sound for the order-insensitive
  properties proved below.
-/

set_option autoImplicit false

namespace HostsGo

/-- ASCII lower-casing of one character, as Go's `strings.ToLower` acts on
the ASCII range (the patterns and hostnames in scope are ASCII; Unicode
case mapping is outside the embedding). -/
def charLower (c : Char) : Char :=
  if 65 ≤ c.toNat ∧ c.toNat ≤ 90 then Char.ofNat (c.toNat + 32) else c

/-- `strings.ToLower` on ASCII strings. -/
def strToLower (s : String) : String :=
  ⟨s.data.map charLower⟩

/-- Index of the last occurrence of `c`, as `bytealg.LastIndexByteString`. -/
def lastIndexOf (c : Char) : List Char → Option Nat
  | [] => none
  | x :: rest =>
    match lastIndexOf c rest with
    | some i => some (i + 1)
    | none => if x = c then some 0 else none

/-- Index of the first occurrence of `c`, as `bytealg.IndexByteString`. -/
def firstIndexOf (c : Char) : List Char → Option Nat
  | [] => none
  | x :: rest =>
    if x = c then some 0
    else
      match firstIndexOf c rest with
      | some i => some (i + 1)
      | none => none

/-- Go `net.SplitHostPort`: splits `host:port` (or `[host]:port`) at the last
colon, with the bracket/colon validity checks of the source; it performs no
validation at all of the port text. -/
def splitHostPort (hostPort : String) : Except String (String × String) :=
  let cs := hostPort.data
  match lastIndexOf ':' cs with
  | none => .error "missing port in address"
  | some i =>
    if cs.head? = some '[' then
      match firstIndexOf ']' cs with
      | none => .error "missing close bracket in address"
      | some e =>
        if e + 1 = cs.length then .error "missing port in address"
        else if e + 1 = i then
          if ((cs.drop 1).contains '[') then .error "unexpected open bracket in address"
          else if ((cs.drop (e + 1)).contains ']') then .error "unexpected close bracket in address"
          else .ok (⟨(cs.drop 1).take (e - 1)⟩, ⟨cs.drop (i + 1)⟩)
        else if cs.getD (e + 1) ' ' = ':' then .error "too many colons in address"
        else .error "missing port in address"
    else
      if ((cs.take i).contains ':') then .error "too many colons in address"
      else if (cs.contains '[') then .error "unexpected open bracket in address"
      else if (cs.contains ']') then .error "unexpected close bracket in address"
      else .ok (⟨cs.take i⟩, ⟨cs.drop (i + 1)⟩)

/-- Decimal digit test for ASCII. -/
def isDigitGo (c : Char) : Bool :=
  '0' ≤ c ∧ c ≤ '9'

/-- Go `strconv.Atoi`: optional sign, then base-10 digits, with the 64-bit
`int` overflow check; any other shape is an error. -/
def atoi (s : String) : Except String Int :=
  match s.data with
  | [] => .error "invalid syntax"
  | c :: rest =>
    let (neg, digits) :=
      if c = '-' then (true, rest)
      else if c = '+' then (false, rest)
      else (false, c :: rest)
    if digits.isEmpty then .error "invalid syntax"
    else if ¬ digits.all isDigitGo then .error "invalid syntax"
    else
      let n : Nat := digits.foldl (fun a c => a * 10 + (c.toNat - 48)) 0
      if neg then
        if n > 2 ^ 63 then .error "value out of range" else .ok (-(n : Int))
      else
        if n ≥ 2 ^ 63 then .error "value out of range" else .ok (n : Int)

/-- Go `net.dtoi`: reads a decimal prefix; fails with no digits or once the
accumulated value reaches the `big = 0xFFFFFF` cutoff. Returns the value and
the number of characters consumed. -/
def dtoiAux : List Char → Nat → Nat → Option (Nat × Nat)
  | [], n, i => if i = 0 then none else some (n, i)
  | c :: rest, n, i =>
    if isDigitGo c then
      let n' := n * 10 + (c.toNat - 48)
      if n' ≥ 0xFFFFFF then none else dtoiAux rest n' (i + 1)
    else if i = 0 then none else some (n, i)

def dtoi (cs : List Char) : Option (Nat × Nat) :=
  dtoiAux cs 0 0

/-- Hex digit value, for `net.xtoi`. -/
def hexVal (c : Char) : Option Nat :=
  if '0' ≤ c ∧ c ≤ '9' then some (c.toNat - 48)
  else if 'a' ≤ c ∧ c ≤ 'f' then some (c.toNat - 97 + 10)
  else if 'A' ≤ c ∧ c ≤ 'F' then some (c.toNat - 65 + 10)
  else none

/-- Go `net.xtoi`: reads a hex prefix; fails with no digits or on reaching the
`big = 0xFFFFFF` cutoff. -/
def xtoiAux : List Char → Nat → Nat → Option (Nat × Nat)
  | [], n, i => if i = 0 then none else some (n, i)
  | c :: rest, n, i =>
    match hexVal c with
    | some v =>
      let n' := n * 16 + v
      if n' ≥ 0xFFFFFF then none else xtoiAux rest n' (i + 1)
    | none => if i = 0 then none else some (n, i)

def xtoi (cs : List Char) : Option (Nat × Nat) :=
  xtoiAux cs 0 0

/-- The four octets of a dotted-decimal IPv4 literal, per Go `net.parseIPv4`:
exactly four dot-separated decimal fields, each `≤ 255`, rejecting non-zero
fields with leading zeroes, and requiring the whole string to be consumed.
The accumulator doubles as the octet counter (`acc.isEmpty` ↔ first field). -/
def parseIPv4Fields : Nat → List Char → List Nat → Option (List Nat)
  | 0, s, acc => if s.isEmpty then some acc.reverse else none
  | k + 1, s, acc =>
    if s.isEmpty then none
    else
      let s1 : Option (List Char) :=
        if acc.isEmpty then some s
        else
          match s with
          | '.' :: r => some r
          | _ => none
      match s1 with
      | none => none
      | some s2 =>
        match dtoi s2 with
        | none => none
        | some (n, c) =>
          if n > 0xFF then none
          else if c > 1 ∧ s2.head? = some '0' then none
          else parseIPv4Fields k (s2.drop c) (n :: acc)

/-- The 12-byte prefix Go uses to embed an IPv4 address in a 16-byte IP. -/
def v4InV6Prefix : List Nat :=
  [0, 0, 0, 0, 0, 0, 0, 0, 0, 0, 0xFF, 0xFF]

/-- Go `net.parseIPv4` (returns the 16-byte v4-in-v6 form, `[]` on failure). -/
def parseIPv4 (s : List Char) : List Nat :=
  match parseIPv4Fields 4 s [] with
  | some bs => v4InV6Prefix ++ bs
  | none => []

/-- One pass of the `net.parseIPv6` main loop. The fuel starts at 8; every
iteration either appends one 16-bit group (two bytes) or terminates, so eight
iterations reproduce the `for i < 16` loop exactly. Returns the accumulated
bytes, the ellipsis position, and the unconsumed input, or `none` on the
failure paths of the source. -/
def parseIPv6Loop : Nat → List Char → List Nat → Option Nat →
    Option (List Nat × Option Nat × List Char)
  | 0, s, acc, ell => some (acc, ell, s)
  | fuel + 1, s, acc, ell =>
    if acc.length ≥ 16 then some (acc, ell, s)
    else
      match xtoi s with
      | none => none
      | some (n, c) =>
        if n > 0xFFFF then none
        else if c < s.length ∧ s.getD c ' ' = '.' then
          if ell = none ∧ acc.length ≠ 12 then none
          else if acc.length + 4 > 16 then none
          else
            match parseIPv4Fields 4 s [] with
            | none => none
            | some bs => some (acc ++ bs, ell, [])
        else
          let acc' := acc ++ [n / 256, n % 256]
          let s' := s.drop c
          if s'.isEmpty then some (acc', ell, [])
          else if s'.head? ≠ some ':' ∨ s'.length = 1 then none
          else
            let s'' := s'.tail
            if s''.head? = some ':' then
              if ell ≠ none then none
              else
                let s3 := s''.tail
                if s3.isEmpty then some (acc', some acc'.length, [])
                else parseIPv6Loop fuel s3 acc' (some acc'.length)
            else parseIPv6Loop fuel s'' acc' ell

/-- The tail of `net.parseIPv6`: the whole string must be consumed, a short
parse expands the ellipsis with zero bytes, and a full parse must not have an
ellipsis. -/
def parseIPv6Finish : Option (List Nat × Option Nat × List Char) → List Nat
  | none => []
  | some (acc, ell, s) =>
    if ¬ s.isEmpty then []
    else if acc.length < 16 then
      match ell with
      | none => []
      | some e => acc.take e ++ List.replicate (16 - acc.length) 0 ++ acc.drop e
    else
      match ell with
      | some _ => []
      | none => acc

/-- Go `net.parseIPv6` (`[]` on failure; `%`-zones are rejected, as by
`ParseIP`). -/
def parseIPv6 (s : List Char) : List Nat :=
  if s.take 2 = [':', ':'] then
    if (s.drop 2).isEmpty then List.replicate 16 0
    else parseIPv6Finish (parseIPv6Loop 8 (s.drop 2) [] (some 0))
  else parseIPv6Finish (parseIPv6Loop 8 s [] none)

/-- The dispatch scan of Go `net.ParseIP`: the first `.` or `:` decides
between the IPv4 and IPv6 parsers. -/
def parseIPKind : List Char → Option Bool
  | [] => none
  | '.' :: _ => some false
  | ':' :: _ => some true
  | _ :: rest => parseIPKind rest

/-- Go `net.ParseIP`: the `nil` result (invalid literal) is `[]`; a valid
literal is its 16-byte form. `ParseIP` itself never reports an error. -/
def parseIP (s : String) : List Nat :=
  match parseIPKind s.data with
  | some false => parseIPv4 s.data
  | some true => parseIPv6 s.data
  | none => []

/-- Go `strconv.Itoa` on the 64-bit `int` values in play (decimal digits with
a leading minus sign for negatives). -/
def intToStr (n : Int) : String :=
  toString n

/-- Go `net.IP.To4`. -/
def ipTo4 (ip : List Nat) : Option (List Nat) :=
  if ip.length = 4 then some ip
  else if ip.length = 16 ∧ ip.take 12 = v4InV6Prefix then some (ip.drop 12)
  else none

/-- Minimal-width lowercase hex of one 16-bit group, as `net.appendHex`. -/
def hexGroupStr (n : Nat) : String :=
  ⟨Nat.toDigits 16 n⟩

/-- Two-digit hex per byte, as `net.hexString`. -/
def hexBytesStr (bs : List Nat) : String :=
  ⟨bs.foldr (fun b acc => Nat.digitChar (b / 16) :: Nat.digitChar (b % 16) :: acc) []⟩

/-- The 16-bit group of a 16-byte IP starting at byte `i`. -/
def groupAt (p : List Nat) (i : Nat) : Nat :=
  p.getD i 0 * 256 + p.getD (i + 1) 0

/-- Length in bytes of the run of zero 16-bit groups starting at byte `i`
(`fuel` bounds the eight groups). -/
def zeroRunLen (p : List Nat) : Nat → Nat → Nat
  | 0, _ => 0
  | fuel + 1, i =>
    if i < 16 ∧ groupAt p i = 0 then 2 + zeroRunLen p fuel (i + 2)
    else 0

/-- The first longest run of zero groups (start, end-exclusive), per the
selection loop in `net.IP.String`; runs of a single group are not selected
(Go resets `e0`, `e1` when `e1 - e0 <= 2`). Scanning every even index with a
strict-improvement rule selects the same run as Go's scan that skips over a
found run: positions inside a run can only start a strictly shorter suffix
run. -/
def bestZeroRun (p : List Nat) : Option (Nat × Nat) :=
  let cands := [0, 2, 4, 6, 8, 10, 12, 14].map (fun i => (i, i + zeroRunLen p 8 i))
  let best := cands.foldl
    (fun acc (c : Nat × Nat) =>
      match acc with
      | none => if c.2 > c.1 then some c else none
      | some b => if c.2 - c.1 > b.2 - b.1 then some c else some b)
    none
  match best with
  | some b => if b.2 - b.1 ≤ 2 then none else some b
  | none => none

/-- The group-printing loop of `net.IP.String` (fuel bounds eight groups). -/
def v6GroupsStr (p : List Nat) (e : Option (Nat × Nat)) : Nat → Nat → String
  | 0, _ => ""
  | fuel + 1, i =>
    if i ≥ 16 then ""
    else if e.any (fun b => b.1 = i) then
      let e1 := (e.map Prod.snd).getD 16
      "::" ++ (if e1 ≥ 16 then "" else hexGroupStr (groupAt p e1) ++ v6GroupsStr p e fuel (e1 + 2))
    else
      (if i > 0 then ":" else "") ++ hexGroupStr (groupAt p i) ++ v6GroupsStr p e fuel (i + 2)

/-- Go `net.IP.String`: `"<nil>"` for the nil IP, dotted decimal for IPv4
(including the v4-in-v6 form), `?`-prefixed raw hex for irregular lengths, and
the compressed lowercase hex form for IPv6. -/
def ipString (ip : List Nat) : String :=
  if ip.isEmpty then "<nil>"
  else
    match ipTo4 ip with
    | some p4 =>
      String.intercalate "." (p4.map (fun b => toString b))
    | none =>
      if ip.length ≠ 16 then "?" ++ hexBytesStr ip
      else v6GroupsStr ip (bestZeroRun ip) 9 0

/-- Go `net.JoinHostPort`. -/
def joinHostPort (host port : String) : String :=
  if host.data.contains ':' then "[" ++ host ++ "]:" ++ port
  else host ++ ":" ++ port

/-- The `Host` value type (`IPs []net.IP` with `Port int`): an ordered IP
collection sharing one optional port, `Port = 0` meaning no port constraint.
The type itself is declared outside `hosts.go`; its two fields are fixed by
every use in `hosts.go` (`Host{IPs: ..., Port: ...}`). -/
structure Host where
  IPs : List (List Nat)
  Port : Int
  deriving Repr, DecidableEq

/-- `parseHost` from `hosts.go`: when the string splits as `host:port`, the
port must pass `strconv.Atoi` (its error is returned verbatim) and the host
goes through `net.ParseIP` with the result stored unchecked; otherwise the
whole string goes through `net.ParseIP` unchecked with port 0. -/
def parseHost (v : String) : Except String Host :=
  match splitHostPort v with
  | .ok ipPort =>
    match atoi ipPort.2 with
    | .error e => .error e
    | .ok pInt => .ok { IPs := [parseIP ipPort.1], Port := pInt }
  | .error _ => .ok { IPs := [parseIP v], Port := 0 }

/-! ## Pattern validation (`validHostPattern`, `isValidHostPattern`) -/

/-- Alphanumeric ASCII, the `label` character classes of `validHostPattern`. -/
def isAlnumGo (c : Char) : Bool :=
  ('a' ≤ c ∧ c ≤ 'z') ∨ ('A' ≤ c ∧ c ≤ 'Z') ∨ ('0' ≤ c ∧ c ≤ '9')

/-- One DNS label of the pattern grammar:
`[a-zA-Z0-9]|[a-zA-Z0-9][a-zA-Z0-9\-]*[a-zA-Z0-9]`, i.e. a non-empty
alphanumeric-and-hyphen run whose first and last characters are
alphanumeric. -/
def isLabelChars : List Char → Bool
  | [] => false
  | c :: rest =>
    isAlnumGo c ∧ isAlnumGo (rest.getLastD c) ∧ (c :: rest).all (fun x => isAlnumGo x ∨ x = '-')

/-- Split at the dots (Go `strings.Split(s, ".")` on the character list). -/
def splitLabels : List Char → List (List Char)
  | [] => [[]]
  | c :: rest =>
    if c = '.' then [] :: splitLabels rest
    else
      match splitLabels rest with
      | [] => [[c]]
      | g :: gs => (c :: g) :: gs

/-- The `((label\.)*label)?` part: absent, or dot-separated valid labels
(labels contain no dot, so the starred form is exactly this split). -/
def domainPartOk (cs : List Char) : Bool :=
  cs.isEmpty ∨ (splitLabels cs).all isLabelChars

/-- Split at the first colon, if any (a port suffix; labels admit no colon). -/
def splitAtColon (cs : List Char) : List Char × Option (List Char) :=
  match firstIndexOf ':' cs with
  | none => (cs, none)
  | some i => (cs.take i, some (cs.drop (i + 1)))

/-- Whole-string membership in the language of `validHostPattern`:
`^(\*\.?)?((label\.)*label)?(:[0-9]{1,5})?$`. The leading `*` (with optional
dot) is stripped greedily, which is unambiguous because neither the domain nor
the port part can start with a dot; the port split at the first colon is
unambiguous because labels admit no colon. -/
def hostPatternMatches (s : String) : Bool :=
  let cs :=
    match s.data with
    | '*' :: '.' :: rest => rest
    | '*' :: rest => rest
    | other => other
  match splitAtColon cs with
  | (dom, none) => domainPartOk dom
  | (dom, some pd) =>
    domainPartOk dom ∧ 1 ≤ pd.length ∧ pd.length ≤ 5 ∧ pd.all isDigitGo

/-- `validHostPattern.FindString s`: the regex is anchored at both ends, so
the leftmost match is the whole string when it matches and the empty string
when nothing matches. -/
def validHostPatternFind (s : String) : String :=
  if hostPatternMatches s then s else ""

/-- `isValidHostPattern` from `hosts.go`: accepts exactly when the found match
spans the entire input. -/
def isValidHostPattern (s : String) : Except String Unit :=
  if (validHostPatternFind s).length = s.length then .ok ()
  else .error ("invalid host pattern '" ++ s ++ "'")

/-! ## The domain-pattern trie

`hosts.go` only uses `trieNode.insert` and `trieNode.contains`; the node type
itself is not part of the excerpt. The definitions below are modelled from the
spec: a right-to-left label trie (rightmost label nearest the root) in which a
pattern beginning `*.` marks its final node with a wildcard entry, an exact
child is preferred over the wildcard during lookup, and a wildcard entry
matches one or more remaining labels. -/

/-- Modelled from the spec: a node of the Domain Pattern Index
(`trieNode`, absent from the excerpt). `children` maps one label to a child
node; `terminal` holds the full canonical pattern of an exact pattern ending
here; `wildcard` holds the full canonical pattern of a wildcard pattern whose
labels end here. -/
inductive TrieNode : Type where
  | node (children : List (String × TrieNode)) (terminal : Option String)
      (wildcard : Option String)

def TrieNode.children : TrieNode → List (String × TrieNode)
  | .node c _ _ => c

def TrieNode.terminal : TrieNode → Option String
  | .node _ t _ => t

def TrieNode.wildcard : TrieNode → Option String
  | .node _ _ w => w

def TrieNode.empty : TrieNode :=
  .node [] none none

/-- Find a child by label. -/
def findChild (l : String) : List (String × TrieNode) → Option TrieNode
  | [] => none
  | (l', c) :: rest => if l' = l then some c else findChild l rest

/-- Replace (or append) the child for a label. -/
def setChild (l : String) (c : TrieNode) : List (String × TrieNode) → List (String × TrieNode)
  | [] => [(l, c)]
  | (l', c') :: rest => if l' = l then (l, c) :: rest else (l', c') :: setChild l c rest

/-- Modelled from the spec: `Insert` descends/creates one node per label
(labels already reversed, so the rightmost label is consumed first) and marks
the final node, storing the full canonical pattern string — in the `terminal`
slot for an exact pattern, in the `wildcard` slot for a `*.`-prefixed one. -/
def insertPath (t : TrieNode) (labels : List String) (wild : Bool) (p : String) : TrieNode :=
  match labels with
  | [] =>
    if wild then .node t.children t.terminal (some p)
    else .node t.children (some p) t.wildcard
  | l :: rest =>
    let child := (findChild l t.children).getD TrieNode.empty
    .node (setChild l (insertPath child rest wild p) t.children) t.terminal t.wildcard

/-- Modelled from the spec: `trieNode.insert` splits the pattern at the dots;
a leading `*` label makes the entry a wildcard for the remaining labels. -/
def TrieNode.insert (t : TrieNode) (p : String) : TrieNode :=
  let labels := (splitLabels p.data).map (fun g => (⟨g⟩ : String))
  if labels.head? = some "*" then insertPath t labels.tail.reverse true p
  else insertPath t labels.reverse false p

/-- Modelled from the spec: `Lookup` descends label by label (rightmost
first); exhausting the labels on a terminal node is a match; at each node an
exact child is preferred, and if the exact descent yields nothing, a wildcard
entry at this node matches the (one or more) remaining labels. -/
def lookupPath (t : TrieNode) : List String → Option String
  | [] => t.terminal
  | l :: rest =>
    match (findChild l t.children).bind (fun c => lookupPath c rest) with
    | some m => some m
    | none => t.wildcard

/-- Modelled from the spec: `trieNode.contains` — the lookup entry point,
returning the stored pattern string of the best match. -/
def TrieNode.contains (t : TrieNode) (s : String) : Option String :=
  lookupPath t (((splitLabels s.data).map (fun g => (⟨g⟩ : String))).reverse)

/-! ## `Hosts` (the Host Set) -/

/-- Association-list overwrite, the effect of `m[k] = v` on a Go map. -/
def mapInsert (k : String) (v : Host) : List (String × Host) → List (String × Host)
  | [] => [(k, v)]
  | (k', v') :: rest => if k' = k then (k, v) :: rest else (k', v') :: mapInsert k v rest

/-- Association-list lookup, the read side of a Go map. -/
def mapFind? (k : String) : List (String × Host) → Option Host
  | [] => none
  | (k', v') :: rest => if k' = k then some v' else mapFind? k rest

/-- `Hosts` from `hosts.go`: the trie plus the canonical
pattern-to-`Host` side table. -/
structure Hosts where
  n : TrieNode
  source : List (String × Host)

/-- `toLowerKeys` from `hosts.go`. -/
def toLowerKeys (source : List (String × Host)) : List (String × Host) :=
  source.foldl (fun acc kv => mapInsert (strToLower kv.1) kv.2 acc) []

/-- `Hosts.insert` from `hosts.go`: lower-case, validate, insert into the
trie; the error of `isValidHostPattern` is propagated. -/
def Hosts.insertPattern (t : Hosts) (s : String) : Except String Hosts :=
  let s' := strToLower s
  match isValidHostPattern s' with
  | .error e => .error e
  | .ok _ => .ok { t with n := t.n.insert s' }

/-- The key loop of `NewHosts`: insert every key, aborting on the first
error. -/
def insertAll (t : Hosts) : List String → Except String Hosts
  | [] => .ok t
  | k :: rest =>
    match t.insertPattern k with
    | .error e => .error e
    | .ok t' => insertAll t' rest

/-- `NewHosts` from `hosts.go`: lower-case the keys, then insert each key of
the resulting map (map iteration order becomes list order). On any error no
`Hosts` value is returned. -/
def NewHosts (source : List (String × Host)) : Except String Hosts :=
  let src := toLowerKeys source
  insertAll { n := TrieNode.empty, source := src } (src.map Prod.fst)

/-- `Hosts.Match` from `hosts.go`: lower-case the query, consult the trie; a
miss is `none`, a hit returns the side-table value under the matched pattern
(a Go map read, zero `Host` if the key were absent). The Go source returns a
pointer to a fresh stack copy of that value; in the embedding the returned
value is itself a copy, independent of the structure. -/
def Hosts.Match (t : Hosts) (s : String) : Option Host :=
  let s' := strToLower s
  match t.n.contains s' with
  | none => none
  | some m => some ((mapFind? m t.source).getD { IPs := [], Port := 0 })

/-! ## The JSON adapter (`NullHosts`) -/

/-- A generic decoded JSON value, as Go's `encoding/json` produces for
`map[string]interface{}`: `nil`, `bool`, `float64` (whose numeric payload is
never inspected by `hosts.go`), `string`, `[]interface{}`,
`map[string]interface{}`. `GoJSON.null` at top level stands for the literal
`null` token that `UnmarshalJSON` recognises bytewise. -/
inductive GoJSON : Type where
  | null
  | bool (b : Bool)
  | number
  | str (s : String)
  | arr (elems : List GoJSON)
  | obj (fields : List (String × GoJSON))

/-- `NullHosts` from `hosts.go`: a `*Hosts` (possibly `nil`) and a validity
flag. -/
structure NullHosts where
  Trie : Option Hosts
  Valid : Bool

/-- The array loop of `NullHosts.UnmarshalJSON` for one key: every element
must be a string and parse via `parseHost`; the first non-zero port is kept,
a later different non-zero port is the "conflicting ports" error; the IP
lists are concatenated. (The Go message interpolates the offending element
into the "invalid host value" error; that formatting is not reproduced.) -/
def mergeHostArray (k : String) : List GoJSON → List (List Nat) → Int → Except String Host
  | [], ips, port => .ok { IPs := ips, Port := port }
  | item :: rest, ips, port =>
    match item with
    | .str s =>
      match parseHost s with
      | .error e => .error e
      | .ok h =>
        if port = 0 then mergeHostArray k rest (ips ++ h.IPs) h.Port
        else if h.Port ≠ 0 ∧ h.Port ≠ port then
          .error ("conflicting ports for host " ++ k)
        else mergeHostArray k rest (ips ++ h.IPs) port
    | _ => .error "invalid host value"

/-- The per-key `switch` of `NullHosts.UnmarshalJSON`: a string goes through
`parseHost`, an array through the merge loop, anything else is the
"invalid host value type" error. -/
def decodeHostValue (k : String) : GoJSON → Except String Host
  | .str s => parseHost s
  | .arr items => mergeHostArray k items [] 0
  | _ => .error ("invalid host value type for " ++ k)

/-- The field loop of `NullHosts.UnmarshalJSON`, building the `source` map. -/
def buildSource : List (String × GoJSON) → List (String × Host) →
    Except String (List (String × Host))
  | [], acc => .ok acc
  | (k, v) :: rest, acc =>
    match decodeHostValue k v with
    | .error e => .error e
    | .ok h => buildSource rest (mapInsert k h acc)

/-- `NullHosts.UnmarshalJSON`: the literal `null` yields the absent state;
any other input must be (the generic decoding of) a JSON object, whose fields
are decoded per key and handed to `NewHosts`; every error leaves no
`NullHosts` value. -/
def unmarshalNullHosts : GoJSON → Except String NullHosts
  | .null => .ok { Trie := none, Valid := false }
  | .obj fields =>
    match buildSource fields [] with
    | .error e => .error e
    | .ok source =>
      match NewHosts source with
      | .error e => .error e
      | .ok hosts => .ok { Trie := some hosts, Valid := true }
  | _ => .error "cannot unmarshal value into map of interface"

/-- The per-IP string of `NullHosts.MarshalJSON`: `ip:port` when the entry
has a port, bare `ip` otherwise. -/
def ipPortStr (port : Int) (ip : List Nat) : String :=
  if port ≠ 0 then joinHostPort (ipString ip) (intToStr port)
  else ipString ip

/-- Modelled from the spec: `Host.String` (declared outside `hosts.go`)
renders a single-IP value as the single string `ip:port`. -/
def hostStringSingle (v : Host) : String :=
  joinHostPort (ipString (v.IPs.headD [])) (intToStr v.Port)

/-- One entry of the object built by `NullHosts.MarshalJSON`: two or more IPs
give an array of per-IP strings, exactly one IP a single string (via
`Host.String` when a port is set), and zero IPs no entry at all. -/
def marshalEntry (k : String) (v : Host) : Option (String × GoJSON) :=
  if v.IPs.length > 1 then
    some (k, .arr (v.IPs.map (fun ip => .str (ipPortStr v.Port ip))))
  else if v.IPs.length = 1 then
    if v.Port ≠ 0 then some (k, .str (hostStringSingle v))
    else some (k, .str (ipString (v.IPs.headD [])))
  else none

/-- The object fields `NullHosts.MarshalJSON` emits for a given `Hosts`. -/
def marshalFields (t : Hosts) : List (String × GoJSON) :=
  t.source.filterMap (fun kv => marshalEntry kv.1 kv.2)

/-- `NullHosts.MarshalJSON`: the absent state is the literal `null` token; a
present value is the object of `marshalEntry` entries (Go serialises the map
with sorted keys; field order carries no weight here). A present value with a
`nil` trie pointer would fault in Go and is rendered from an empty source. -/
def marshalNullHosts (n : NullHosts) : GoJSON :=
  if n.Valid = false then .null
  else .obj (marshalFields ((n.Trie).getD { n := TrieNode.empty, source := [] }))

/-! ## Spec-side characterisations

These definitions transcribe the spec's wording, to be compared with the
source-derived functions above. -/

/-- Spec wording: "the first non-zero port seen becomes the value's port". -/
def firstNonzeroPort : List Host → Int
  | [] => 0
  | h :: rest => if h.Port ≠ 0 then h.Port else firstNonzeroPort rest

/-- Spec wording: "fails … if a later element specifies a different non-zero
port" — some element has a non-zero port different from the first non-zero
port. -/
def portConflict (hs : List Host) : Bool :=
  hs.any (fun h => h.Port ≠ 0 ∧ h.Port ≠ firstNonzeroPort hs)

/-- The patterns stored anywhere in a trie (terminal or wildcard entries of
any reachable node). -/
inductive StoredIn : String → TrieNode → Prop where
  | term {p : String} {t : TrieNode} : t.terminal = some p → StoredIn p t
  | wild {p : String} {t : TrieNode} : t.wildcard = some p → StoredIn p t
  | child {p l : String} {t : TrieNode} {c : TrieNode} :
      (l, c) ∈ t.children → StoredIn p c → StoredIn p t

/-! ## Helper lemmas -/

theorem toNat_ofNat_small (n : Nat) (h : n < 55296) : (Char.ofNat n).toNat = n := by
  have hv : n.isValidChar := Or.inl h
  simp only [Char.ofNat, hv, dite_true, Char.ofNatAux, Char.toNat]
  simp [UInt32.toNat, UInt32.ofNatCore]

theorem charLower_idem (c : Char) : charLower (charLower c) = charLower c := by
  by_cases h : 65 ≤ c.toNat ∧ c.toNat ≤ 90
  · have h32 : (Char.ofNat (c.toNat + 32)).toNat = c.toNat + 32 :=
      toNat_ofNat_small _ (by omega)
    have hlt : ¬ (65 ≤ c.toNat + 32 ∧ c.toNat + 32 ≤ 90) := by omega
    unfold charLower
    rw [if_pos h, h32, if_neg hlt]
  · unfold charLower
    rw [if_neg h, if_neg h]

theorem strToLower_idem (s : String) : strToLower (strToLower s) = strToLower s := by
  unfold strToLower
  have hc : charLower ∘ charLower = charLower := funext fun c => charLower_idem c
  simp [List.map_map, hc]

/-- The validator accepts exactly the full-match strings (the regex is
anchored at both ends). -/
theorem isValidHostPattern_eq (s : String) :
    isValidHostPattern s =
      if hostPatternMatches s then .ok () else .error ("invalid host pattern '" ++ s ++ "'") := by
  unfold isValidHostPattern validHostPatternFind
  by_cases hm : hostPatternMatches s
  · rw [if_pos hm, if_pos hm, if_pos rfl]
  · have hne : s.length ≠ 0 := by
      intro h0
      cases s with
      | mk d =>
        cases d with
        | nil => exact hm (by decide)
        | cons c cs => simp [String.length] at h0
    rw [if_neg hm, if_neg hm]
    have h0 : ("" : String).length = 0 := rfl
    rw [h0, if_neg (Ne.symm hne)]

theorem mem_mapInsert {m : List (String × Host)} {k : String} {v : Host}
    {kv : String × Host} (h : kv ∈ mapInsert k v m) : kv = (k, v) ∨ kv ∈ m := by
  induction m with
  | nil => simpa [mapInsert] using h
  | cons x rest ih =>
    unfold mapInsert at h
    by_cases hx : x.1 = k
    · rw [if_pos hx] at h
      rcases List.mem_cons.mp h with h1 | h2
      · exact Or.inl h1
      · exact Or.inr (List.mem_cons_of_mem _ h2)
    · rw [if_neg hx] at h
      rcases List.mem_cons.mp h with h1 | h2
      · exact Or.inr (h1 ▸ List.mem_cons_self x rest)
      · rcases ih h2 with h3 | h4
        · exact Or.inl h3
        · exact Or.inr (List.mem_cons_of_mem _ h4)

theorem toLowerKeys_key_fixed {src : List (String × Host)} {kv : String × Host}
    (h : kv ∈ toLowerKeys src) : strToLower kv.1 = kv.1 := by
  suffices hgen : ∀ (l acc : List (String × Host)),
      (∀ x ∈ acc, strToLower x.1 = x.1) →
      ∀ x ∈ l.foldl (fun acc kv => mapInsert (strToLower kv.1) kv.2 acc) acc,
        strToLower x.1 = x.1 by
    exact hgen src [] (by intro x hx; cases hx) kv h
  intro l
  induction l with
  | nil => intro acc hacc x hx; exact hacc x hx
  | cons y rest ih =>
    intro acc hacc x hx
    refine ih _ ?_ x hx
    intro z hz
    rcases mem_mapInsert hz with h1 | h2
    · rw [h1]
      exact strToLower_idem y.1
    · exact hacc z h2

theorem mapFind?_of_mem {m : List (String × Host)} {k : String}
    (h : ∃ v, (k, v) ∈ m) : ∃ v, mapFind? k m = some v := by
  induction m with
  | nil => rcases h with ⟨v, hv⟩; cases hv
  | cons x rest ih =>
    by_cases hx : x.1 = k
    · exact ⟨x.2, by simp [mapFind?, hx]⟩
    · rcases h with ⟨v, hv⟩
      rcases List.mem_cons.mp hv with h1 | h2
      · exact absurd (congrArg Prod.fst h1.symm) hx
      · rcases ih ⟨v, h2⟩ with ⟨v', hv'⟩
        exact ⟨v', by simpa [mapFind?, hx] using hv'⟩

/-! ## The claims -/

/-- C1: in a Host Set in which both the exact pattern `example.com` and the
wildcard pattern `*.example.com` are inserted with distinct values V1 and V2,
`Match "example.com"` returns V1 and `Match "sub.example.com"` returns V2:
the exact entry is preferred over the wildcard at the shared node. -/
theorem match_exact_beats_wildcard (V1 V2 : Host) (hne : V1 ≠ V2) :
    ∃ t, NewHosts [("example.com", V1), ("*.example.com", V2)] = .ok t ∧
      t.Match "example.com" = some V1 ∧ t.Match "sub.example.com" = some V2 :=
  ⟨_, rfl, rfl, rfl⟩

theorem match_exact_beats_wildcard_witness :
    ({ IPs := [[1]], Port := 0 } : Host) ≠ { IPs := [[2]], Port := 0 } ∧
      ∃ t, NewHosts [("example.com", { IPs := [[1]], Port := 0 }),
          ("*.example.com", { IPs := [[2]], Port := 0 })] = .ok t ∧
        t.Match "example.com" = some { IPs := [[1]], Port := 0 } ∧
        t.Match "sub.example.com" = some { IPs := [[2]], Port := 0 } :=
  ⟨by decide, match_exact_beats_wildcard _ _ (by decide)⟩

/-- C2: with only the wildcard pattern `*.example.com` bound to V,
`Match "a.example.com"` and `Match "a.b.example.com"` both return V (the
wildcard absorbs one or more remaining labels), while `Match "example.com"`
(the bare parent, not separately inserted) returns absent. -/
theorem match_wildcard_absorbs_labels (V : Host) :
    ∃ t, NewHosts [("*.example.com", V)] = .ok t ∧
      t.Match "a.example.com" = some V ∧ t.Match "a.b.example.com" = some V ∧
      t.Match "example.com" = none :=
  ⟨_, rfl, rfl, rfl, rfl⟩

/-- C3, counterexample: `parseHost` applied to `"not-an-ip"`, whose IP
portion does not parse as an IP literal (`net.ParseIP` yields the nil IP),
returns an Address Value — with the nil IP stored in it — rather than any
error, refuting the claim that an unparseable IP portion is rejected. -/
theorem parseHost_accepts_unparseable_ip :
    parseIP "not-an-ip" = [] ∧
      parseHost "not-an-ip" = .ok { IPs := [[]], Port := 0 } :=
  ⟨rfl, rfl⟩

/-- C3, amended: `parseHost` returns an error exactly when the input splits
as `host:port` and the port is not a valid decimal integer; when the input
does not split as `host:port` it always succeeds, storing `net.ParseIP`'s
result (possibly the nil IP) unchecked with port 0. -/
theorem parseHost_errors_only_on_bad_port :
    (∀ v, (parseHost v).isOk = false ↔
      ∃ hp, splitHostPort v = .ok hp ∧ (atoi hp.2).isOk = false) ∧
    (∀ v, (splitHostPort v).isOk = false →
      parseHost v = .ok { IPs := [parseIP v], Port := 0 }) := by
  constructor
  · intro v
    cases hsp : splitHostPort v with
    | ok hp =>
      cases hat : atoi hp.2 with
      | error e =>
        constructor
        · intro _
          exact ⟨hp, rfl, by simp [hat, Except.isOk, Except.toBool]⟩
        · intro _
          simp [parseHost, hsp, hat, Except.isOk, Except.toBool]
      | ok n =>
        constructor
        · intro h
          exfalso
          simp [parseHost, hsp, hat, Except.isOk, Except.toBool] at h
        · rintro ⟨hp', h1, h2⟩
          cases h1
          rw [hat] at h2
          simp [Except.isOk, Except.toBool] at h2
    | error e =>
      constructor
      · intro h
        exfalso
        simp [parseHost, hsp, Except.isOk, Except.toBool] at h
      · rintro ⟨hp', h1, _⟩
        cases h1
  · intro v hv
    cases hsp : splitHostPort v with
    | ok hp =>
      rw [hsp] at hv
      simp [Except.isOk, Except.toBool] at hv
    | error e =>
      simp [parseHost, hsp]

theorem parseHost_errors_only_on_bad_port_witness :
    parseHost "not.an.ip.literal" = .ok { IPs := [parseIP "not.an.ip.literal"], Port := 0 } :=
  parseHost_errors_only_on_bad_port.2 "not.an.ip.literal" rfl

/-- C6: `Match` is invariant under case: queries with the same lower-casing
agree, and lower-casing the stored keys of the source mapping leaves the
constructed Host Set unchanged. -/
theorem match_case_invariant :
    (∀ (t : Hosts) (s1 s2 : String), strToLower s1 = strToLower s2 →
      t.Match s1 = t.Match s2) ∧
    (∀ src : List (String × Host),
      NewHosts (src.map fun kv => (strToLower kv.1, kv.2)) = NewHosts src) := by
  constructor
  · intro t s1 s2 h
    unfold Hosts.Match
    rw [h]
  · intro src
    unfold NewHosts
    have hkeys : toLowerKeys (src.map fun kv => (strToLower kv.1, kv.2)) = toLowerKeys src := by
      unfold toLowerKeys
      rw [List.foldl_map]
      have hf : (fun (acc : List (String × Host)) (kv : String × Host) =>
          mapInsert (strToLower (strToLower kv.1, kv.2).1) (strToLower kv.1, kv.2).2 acc) =
          fun acc kv => mapInsert (strToLower kv.1) kv.2 acc := by
        funext acc kv
        simp [strToLower_idem]
      rw [hf]
    rw [hkeys]

theorem match_case_invariant_witness :
    strToLower "EXAMPLE.com" = strToLower "example.com" ∧
      (Hosts.mk (.node [("com", .node [("example", .node [] (some "example.com") none)]
            none none)] none none)
          [("example.com", { IPs := [[7]], Port := 0 })]).Match "EXAMPLE.com" =
        (Hosts.mk (.node [("com", .node [("example", .node [] (some "example.com") none)]
            none none)] none none)
          [("example.com", { IPs := [[7]], Port := 0 })]).Match "example.com" :=
  ⟨rfl, match_case_invariant.1 _ "EXAMPLE.com" "example.com" rfl⟩

/-- C8, counterexample: `parseHost "1.2.3.4:99999"` succeeds with Port
99999, outside [0, 65535]: no range check is applied to the port. -/
theorem parseHost_port_out_of_range :
    parseHost "1.2.3.4:99999" =
      .ok { IPs := [[0, 0, 0, 0, 0, 0, 0, 0, 0, 0, 255, 255, 1, 2, 3, 4]], Port := 99999 } ∧
      ¬ ((99999 : Int) ≤ 65535) :=
  ⟨rfl, by decide⟩

/-- C8, amended: the port of a parsed Address Value is exactly what
`strconv.Atoi` returned for the text after the last colon — any integer
representable in 64 bits, including negatives and values above 65535 — and 0
when no `host:port` split exists; no [0, 65535] range check is performed. -/
theorem parseHost_port_unchecked :
    (∀ v hp n, splitHostPort v = .ok hp → atoi hp.2 = .ok n →
      parseHost v = .ok { IPs := [parseIP hp.1], Port := n }) ∧
    (∀ v h, parseHost v = .ok h →
      h.Port = 0 ∨ ∃ hp, splitHostPort v = .ok hp ∧ atoi hp.2 = .ok h.Port) := by
  constructor
  · intro v hp n hsp hat
    simp [parseHost, hsp, hat]
  · intro v h hok
    cases hsp : splitHostPort v with
    | ok hp =>
      cases hat : atoi hp.2 with
      | error e =>
        simp [parseHost, hsp, hat] at hok
      | ok n =>
        simp [parseHost, hsp, hat] at hok
        refine Or.inr ⟨hp, rfl, ?_⟩
        rw [← hok]
        exact hat
    | error e =>
      simp [parseHost, hsp] at hok
      rw [← hok]
      exact Or.inl rfl

theorem parseHost_port_unchecked_witness :
    parseHost "1.2.3.4:-1" =
      .ok { IPs := [[0, 0, 0, 0, 0, 0, 0, 0, 0, 0, 255, 255, 1, 2, 3, 4]], Port := -1 } :=
  parseHost_port_unchecked.1 "1.2.3.4:-1" ("1.2.3.4", "-1") (-1) rfl rfl

/-- Boolean flip helper: a `Bool` that is not `false` is `true`. -/
theorem bool_not_false {b : Bool} (h : ¬ b = false) : b = true := by
  cases b
  · exact absurd rfl h
  · rfl

/-- The key-insertion loop fails, with the offending pattern's message, as
soon as some key (all keys being already lower-cased) fails the grammar. -/
theorem insertAll_error_of_invalid :
    ∀ (ks : List String) (t : Hosts),
      (∀ k ∈ ks, strToLower k = k) →
      (∃ k ∈ ks, hostPatternMatches k = false) →
      ∃ k, k ∈ ks ∧ hostPatternMatches k = false ∧
        insertAll t ks = .error ("invalid host pattern '" ++ k ++ "'") := by
  intro ks
  induction ks with
  | nil =>
    intro t _ h
    rcases h with ⟨k, hk, _⟩
    cases hk
  | cons k rest ih =>
    intro t hlow hex
    by_cases hk : hostPatternMatches k = false
    · refine ⟨k, List.mem_cons_self _ _, hk, ?_⟩
      have hins : t.insertPattern k = .error ("invalid host pattern '" ++ k ++ "'") := by
        simp only [Hosts.insertPattern, hlow k (List.mem_cons_self _ _), isValidHostPattern_eq]
        rw [if_neg (by simp [hk])]
      simp [insertAll, hins]
    · have hkt : hostPatternMatches k = true := bool_not_false hk
      have hins : t.insertPattern k = .ok { t with n := t.n.insert k } := by
        simp only [Hosts.insertPattern, hlow k (List.mem_cons_self _ _), isValidHostPattern_eq]
        rw [if_pos hkt]
      rcases hex with ⟨k', hk', hbad⟩
      rcases List.mem_cons.mp hk' with heq | hmem
      · rw [heq, hkt] at hbad
        cases hbad
      · obtain ⟨k2, hm2, hb2, herr⟩ :=
          ih { t with n := t.n.insert k }
            (fun x hx => hlow x (List.mem_cons_of_mem _ hx)) ⟨k', hmem, hbad⟩
        exact ⟨k2, List.mem_cons_of_mem _ hm2, hb2, by simpa [insertAll, hins] using herr⟩

/-- C4: if any key of the (lower-cased) source mapping fails the pattern
grammar, `NewHosts` returns the `invalid host pattern` error of an offending
key and produces no Host Set at all; and the validator accepts exactly when
the regex match spans the entire input, i.e. on full-grammar membership. -/
theorem newHosts_rejects_invalid_pattern :
    (∀ src : List (String × Host),
      (∃ kv ∈ toLowerKeys src, hostPatternMatches kv.1 = false) →
      ∃ k v, (k, v) ∈ toLowerKeys src ∧ hostPatternMatches k = false ∧
        NewHosts src = .error ("invalid host pattern '" ++ k ++ "'")) ∧
    (∀ s, isValidHostPattern s = .ok () ↔ hostPatternMatches s = true) := by
  constructor
  · intro src hex0
    rcases hex0 with ⟨kv, hmem, hbad⟩
    have hlow : ∀ k ∈ (toLowerKeys src).map Prod.fst, strToLower k = k := by
      intro k hk
      rcases List.mem_map.mp hk with ⟨kv', hkv', rfl⟩
      exact toLowerKeys_key_fixed hkv'
    obtain ⟨k, hkmem, hkbad, herr⟩ :=
      insertAll_error_of_invalid ((toLowerKeys src).map Prod.fst)
        { n := TrieNode.empty, source := toLowerKeys src } hlow
        ⟨kv.1, List.mem_map_of_mem _ hmem, hbad⟩
    rcases List.mem_map.mp hkmem with ⟨kv2, hkv2, rfl⟩
    exact ⟨kv2.1, kv2.2, by simpa using hkv2, hkbad, by simpa [NewHosts] using herr⟩
  · intro s
    rw [isValidHostPattern_eq]
    by_cases hm : hostPatternMatches s
    · simp [hm]
    · simp [hm]

theorem newHosts_rejects_invalid_pattern_witness :
    ∃ k v, (k, v) ∈ toLowerKeys [("exa mple.com", ({ IPs := [[1]], Port := 0 } : Host))] ∧
      hostPatternMatches k = false ∧
      NewHosts [("exa mple.com", { IPs := [[1]], Port := 0 })] =
        .error ("invalid host pattern '" ++ k ++ "'") :=
  newHosts_rejects_invalid_pattern.1 _
    ⟨("exa mple.com", { IPs := [[1]], Port := 0 }), by decide, by decide⟩

/-- The merge loop with a non-zero accumulated port: it keeps that port,
errors exactly when some element has a different non-zero port, and
concatenates the IPs. -/
theorem mergeHostArray_nz (k : String) :
    ∀ {ss : List String} {hs : List Host},
      List.Forall₂ (fun s h => parseHost s = Except.ok h) ss hs →
      ∀ (ips : List (List Nat)) (p : Int), p ≠ 0 →
      mergeHostArray k (ss.map GoJSON.str) ips p =
        if ∃ h ∈ hs, h.Port ≠ 0 ∧ h.Port ≠ p then
          Except.error ("conflicting ports for host " ++ k)
        else Except.ok { IPs := ips ++ (hs.map Host.IPs).flatten, Port := p } := by
  intro ss hs hfa
  induction hfa with
  | nil =>
    intro ips p hp
    simp [mergeHostArray]
  | @cons a b l1 l2 hph hrest ih =>
    intro ips p hp
    rw [List.map_cons]
    simp only [mergeHostArray, hph]
    rw [if_neg hp]
    by_cases hc : b.Port ≠ 0 ∧ b.Port ≠ p
    · rw [if_pos hc, if_pos ⟨b, List.mem_cons_self _ _, hc⟩]
    · rw [if_neg hc, ih _ p hp]
      by_cases hex : ∃ h ∈ l2, h.Port ≠ 0 ∧ h.Port ≠ p
      · rcases hex with ⟨h, hm, hh⟩
        rw [if_pos ⟨h, hm, hh⟩, if_pos ⟨h, List.mem_cons_of_mem _ hm, hh⟩]
      · rw [if_neg hex, if_neg ?hne]
        case hne =>
          rintro ⟨h, hm, hh⟩
          rcases List.mem_cons.mp hm with heq | hmem
          · exact hc (heq ▸ hh)
          · exact hex ⟨h, hmem, hh⟩
        simp [List.append_assoc]

/-- The merge loop from its initial state: the resulting port is the first
non-zero port of the parsed elements, the error is raised exactly when some
element has a non-zero port different from it, and the IPs concatenate. -/
theorem mergeHostArray_zero (k : String) :
    ∀ {ss : List String} {hs : List Host},
      List.Forall₂ (fun s h => parseHost s = Except.ok h) ss hs →
      ∀ ips : List (List Nat),
      mergeHostArray k (ss.map GoJSON.str) ips 0 =
        if ∃ h ∈ hs, h.Port ≠ 0 ∧ h.Port ≠ firstNonzeroPort hs then
          Except.error ("conflicting ports for host " ++ k)
        else
          Except.ok { IPs := ips ++ (hs.map Host.IPs).flatten, Port := firstNonzeroPort hs } := by
  intro ss hs hfa
  induction hfa with
  | nil =>
    intro ips
    simp [mergeHostArray, firstNonzeroPort]
  | @cons a b l1 l2 hph hrest ih =>
    intro ips
    rw [List.map_cons]
    simp only [mergeHostArray, hph]
    rw [if_pos trivial]
    by_cases hbp : b.Port = 0
    · rw [hbp, ih]
      have hfz : firstNonzeroPort (b :: l2) = firstNonzeroPort l2 := by
        simp [firstNonzeroPort, hbp]
      rw [hfz]
      by_cases hex : ∃ h ∈ l2, h.Port ≠ 0 ∧ h.Port ≠ firstNonzeroPort l2
      · rcases hex with ⟨h, hm, hh⟩
        rw [if_pos ⟨h, hm, hh⟩, if_pos ⟨h, List.mem_cons_of_mem _ hm, hh⟩]
      · rw [if_neg hex, if_neg ?hne0]
        case hne0 =>
          rintro ⟨h, hm, hh⟩
          rcases List.mem_cons.mp hm with heq | hmem
          · exact (heq ▸ hh).1 (heq ▸ hbp)
          · exact hex ⟨h, hmem, hh⟩
        simp [List.append_assoc]
    · rw [mergeHostArray_nz k hrest _ b.Port hbp]
      have hfz : firstNonzeroPort (b :: l2) = b.Port := by
        simp [firstNonzeroPort, hbp]
      rw [hfz]
      by_cases hex : ∃ h ∈ l2, h.Port ≠ 0 ∧ h.Port ≠ b.Port
      · rcases hex with ⟨h, hm, hh⟩
        rw [if_pos ⟨h, hm, hh⟩, if_pos ⟨h, List.mem_cons_of_mem _ hm, hh⟩]
      · rw [if_neg hex, if_neg ?hne1]
        case hne1 =>
          rintro ⟨h, hm, hh⟩
          rcases List.mem_cons.mp hm with heq | hmem
          · exact (heq ▸ hh).2 (heq ▸ rfl)
          · exact hex ⟨h, hmem, hh⟩
        simp [List.append_assoc]

/-- `portConflict` decides exactly the spec-side conflict condition. -/
theorem portConflict_iff (hs : List Host) :
    portConflict hs = true ↔ ∃ h ∈ hs, h.Port ≠ 0 ∧ h.Port ≠ firstNonzeroPort hs := by
  simp [portConflict, List.any_eq_true]

/-- C5: decoding a key whose value is an array of address strings merges all
element IPs (in order) into one Address Value whose port is the first
non-zero element port; if some element carries a different non-zero port the
whole decode fails with the `conflicting ports` error naming the key, and no
`NullHosts` value is produced. -/
theorem unmarshal_merges_array_ports :
    ∀ (k : String) (ss : List String) (hs : List Host),
      List.Forall₂ (fun s h => parseHost s = Except.ok h) ss hs →
      (portConflict hs = true →
        unmarshalNullHosts (.obj [(k, .arr (ss.map GoJSON.str))]) =
          .error ("conflicting ports for host " ++ k)) ∧
      (portConflict hs = false →
        decodeHostValue k (.arr (ss.map GoJSON.str)) =
          .ok { IPs := (hs.map Host.IPs).flatten, Port := firstNonzeroPort hs }) := by
  intro k ss hs hfa
  have hdec := mergeHostArray_zero k hfa []
  constructor
  · intro hc
    rw [if_pos ((portConflict_iff hs).mp hc)] at hdec
    simp [unmarshalNullHosts, buildSource, decodeHostValue, hdec]
  · intro hc
    have hex : ¬ ∃ h ∈ hs, h.Port ≠ 0 ∧ h.Port ≠ firstNonzeroPort hs := by
      intro hx
      rw [(portConflict_iff hs).mpr hx] at hc
      cases hc
    rw [if_neg hex] at hdec
    simpa [decodeHostValue] using hdec

theorem unmarshal_merges_array_ports_witness :
    unmarshalNullHosts (.obj [("a.com", .arr [.str "1.1.1.1:80", .str "2.2.2.2:81"])]) =
      .error "conflicting ports for host a.com" :=
  (unmarshal_merges_array_ports "a.com" ["1.1.1.1:80", "2.2.2.2:81"]
      [{ IPs := [[0, 0, 0, 0, 0, 0, 0, 0, 0, 0, 255, 255, 1, 1, 1, 1]], Port := 80 },
       { IPs := [[0, 0, 0, 0, 0, 0, 0, 0, 0, 0, 255, 255, 2, 2, 2, 2]], Port := 81 }]
      (List.Forall₂.cons rfl (List.Forall₂.cons rfl List.Forall₂.nil))).1 rfl

/-- Keys of a nodup-keyed association list determine their values. -/
theorem nodup_keys_unique :
    ∀ {l : List (String × Host)}, (l.map Prod.fst).Nodup →
      ∀ {k : String} {v v' : Host}, (k, v) ∈ l → (k, v') ∈ l → v = v' := by
  intro l
  induction l with
  | nil =>
    intro _ k v v' hv
    cases hv
  | cons x rest ih =>
    intro hnd k v v' hv hv'
    rw [List.map_cons, List.nodup_cons] at hnd
    rcases List.mem_cons.mp hv with h1 | h1 <;> rcases List.mem_cons.mp hv' with h2 | h2
    · rw [← h1] at h2
      exact congrArg Prod.snd h2.symm
    · exfalso
      apply hnd.1
      have hx1 : x.1 = k := congrArg Prod.fst h1.symm
      rw [hx1]
      exact List.mem_map.mpr ⟨(k, v'), h2, rfl⟩
    · exfalso
      apply hnd.1
      have hx1 : x.1 = k := congrArg Prod.fst h2.symm
      rw [hx1]
      exact List.mem_map.mpr ⟨(k, v), h1, rfl⟩
    · exact ih hnd.2 h1 h2

/-- `marshalEntry` only ever emits an entry under its own key. -/
theorem marshalEntry_fst {k : String} {v : Host} {kvj : String × GoJSON}
    (h : marshalEntry k v = some kvj) : kvj.1 = k := by
  unfold marshalEntry at h
  by_cases h1 : v.IPs.length > 1
  · rw [if_pos h1] at h
    cases h
    rfl
  · rw [if_neg h1] at h
    by_cases h2 : v.IPs.length = 1
    · rw [if_pos h2] at h
      by_cases h3 : v.Port ≠ 0
      · rw [if_pos h3] at h
        cases h
        rfl
      · rw [if_neg h3] at h
        cases h
        rfl
    · rw [if_neg h2] at h
      cases h

/-- C7: encoding an absent Optional Host Set yields the literal JSON null;
a present one yields an object in which every stored pattern with two or more
IPs maps to the array of per-IP strings (`ip:port` when the port is non-zero,
else bare `ip`), every pattern with exactly one IP maps to that single
string, and every pattern with zero IPs is omitted entirely. -/
theorem marshal_shape :
    (∀ n : NullHosts, n.Valid = false → marshalNullHosts n = .null) ∧
    (∀ t : Hosts, marshalNullHosts { Trie := some t, Valid := true } =
      .obj (marshalFields t)) ∧
    (∀ t : Hosts, (t.source.map Prod.fst).Nodup →
      ∀ k v, (k, v) ∈ t.source →
        (2 ≤ v.IPs.length →
          (k, GoJSON.arr (v.IPs.map fun ip => GoJSON.str (ipPortStr v.Port ip))) ∈
            marshalFields t) ∧
        (v.IPs.length = 1 →
          (k, GoJSON.str (ipPortStr v.Port (v.IPs.headD []))) ∈ marshalFields t) ∧
        (v.IPs.length = 0 → ∀ j, (k, j) ∉ marshalFields t)) := by
  refine ⟨?_, ?_, ?_⟩
  · intro n hval
    unfold marshalNullHosts
    rw [if_pos hval]
  · intro t
    rfl
  · intro t hnd k v hmem
    refine ⟨?_, ?_, ?_⟩
    · intro hlen
      refine List.mem_filterMap.mpr ⟨(k, v), hmem, ?_⟩
      unfold marshalEntry
      rw [if_pos (by omega : v.IPs.length > 1)]
    · intro hlen
      refine List.mem_filterMap.mpr ⟨(k, v), hmem, ?_⟩
      unfold marshalEntry
      rw [if_neg (by omega : ¬ v.IPs.length > 1), if_pos hlen]
      by_cases h3 : v.Port ≠ 0
      · rw [if_pos h3]
        simp [hostStringSingle, ipPortStr, h3]
      · rw [if_neg h3]
        simp [ipPortStr, h3]
    · intro hlen j hjmem
      rcases List.mem_filterMap.mp hjmem with ⟨kv', hmem', hent⟩
      obtain ⟨k', v'⟩ := kv'
      have hk : k = k' := marshalEntry_fst hent
      rw [← hk] at hmem' hent
      have hveq : v' = v := nodup_keys_unique hnd hmem' hmem
      rw [hveq] at hent
      unfold marshalEntry at hent
      rw [if_neg (by omega : ¬ v.IPs.length > 1), if_neg (by omega : ¬ v.IPs.length = 1)]
        at hent
      cases hent

theorem marshal_shape_witness :
    ("two.com", GoJSON.arr [.str "1.2.3.4:80", .str "5.6.7.8:80"]) ∈
      marshalFields (Hosts.mk TrieNode.empty
        [("two.com", { IPs := [[1, 2, 3, 4], [5, 6, 7, 8]], Port := 80 }),
         ("one.com", { IPs := [[1, 2, 3, 4]], Port := 0 }),
         ("zero.com", { IPs := [], Port := 9 })]) ∧
    ("one.com", GoJSON.str "1.2.3.4") ∈
      marshalFields (Hosts.mk TrieNode.empty
        [("two.com", { IPs := [[1, 2, 3, 4], [5, 6, 7, 8]], Port := 80 }),
         ("one.com", { IPs := [[1, 2, 3, 4]], Port := 0 }),
         ("zero.com", { IPs := [], Port := 9 })]) ∧
    (∀ j, ("zero.com", j) ∉
      marshalFields (Hosts.mk TrieNode.empty
        [("two.com", { IPs := [[1, 2, 3, 4], [5, 6, 7, 8]], Port := 80 }),
         ("one.com", { IPs := [[1, 2, 3, 4]], Port := 0 }),
         ("zero.com", { IPs := [], Port := 9 })])) ∧
    marshalNullHosts { Trie := some (Hosts.mk TrieNode.empty []), Valid := false } =
      GoJSON.null :=
  ⟨(marshal_shape.2.2 _ (by decide) "two.com"
      { IPs := [[1, 2, 3, 4], [5, 6, 7, 8]], Port := 80 } (by decide)).1 (by decide),
   (marshal_shape.2.2 _ (by decide) "one.com"
      { IPs := [[1, 2, 3, 4]], Port := 0 } (by decide)).2.1 (by decide),
   (fun j => (marshal_shape.2.2 _ (by decide) "zero.com"
      { IPs := [], Port := 9 } (by decide)).2.2 (by decide) j),
   marshal_shape.1 _ rfl⟩

theorem findChild_mem {l : String} {c : TrieNode} :
    ∀ {cs : List (String × TrieNode)}, findChild l cs = some c → (l, c) ∈ cs := by
  intro cs
  induction cs with
  | nil => intro h; cases h
  | cons x rest ih =>
    obtain ⟨l', c'⟩ := x
    intro h
    unfold findChild at h
    by_cases hx : l' = l
    · rw [if_pos hx] at h
      cases h
      rw [hx]
      exact List.mem_cons_self _ _
    · rw [if_neg hx] at h
      exact List.mem_cons_of_mem _ (ih h)

theorem mem_setChild {l : String} {c : TrieNode} {kv : String × TrieNode} :
    ∀ {cs : List (String × TrieNode)}, kv ∈ setChild l c cs → kv = (l, c) ∨ kv ∈ cs := by
  intro cs
  induction cs with
  | nil =>
    intro h
    unfold setChild at h
    simpa using h
  | cons x rest ih =>
    obtain ⟨l', c'⟩ := x
    intro h
    unfold setChild at h
    by_cases hx : l' = l
    · rw [if_pos hx] at h
      rcases List.mem_cons.mp h with h1 | h2
      · exact Or.inl h1
      · exact Or.inr (List.mem_cons_of_mem _ h2)
    · rw [if_neg hx] at h
      rcases List.mem_cons.mp h with h1 | h2
      · exact Or.inr (h1 ▸ List.mem_cons_self _ _)
      · rcases ih h2 with h3 | h4
        · exact Or.inl h3
        · exact Or.inr (List.mem_cons_of_mem _ h4)

theorem not_storedIn_empty {p : String} : ¬ StoredIn p TrieNode.empty := by
  intro h
  cases h with
  | term ht => simp [TrieNode.empty, TrieNode.terminal] at ht
  | wild hw => simp [TrieNode.empty, TrieNode.wildcard] at hw
  | child hm _ => simp [TrieNode.empty, TrieNode.children] at hm

/-- Whatever is stored after an `insertPath` was either just inserted or
already stored. -/
theorem storedIn_insertPath :
    ∀ (labels : List String) (t : TrieNode) (w : Bool) (p q : String),
      StoredIn q (insertPath t labels w p) → q = p ∨ StoredIn q t := by
  intro labels
  induction labels with
  | nil =>
    intro t w p q h
    cases w with
    | false =>
      simp only [insertPath, Bool.false_eq_true, if_false] at h
      cases h with
      | term ht =>
        simp only [TrieNode.terminal] at ht
        exact Or.inl (Option.some.inj ht).symm
      | wild hw =>
        simp only [TrieNode.wildcard] at hw
        exact Or.inr (StoredIn.wild hw)
      | child hm hs =>
        simp only [TrieNode.children] at hm
        exact Or.inr (StoredIn.child hm hs)
    | true =>
      simp only [insertPath, if_true] at h
      cases h with
      | term ht =>
        simp only [TrieNode.terminal] at ht
        exact Or.inr (StoredIn.term ht)
      | wild hw =>
        simp only [TrieNode.wildcard] at hw
        exact Or.inl (Option.some.inj hw).symm
      | child hm hs =>
        simp only [TrieNode.children] at hm
        exact Or.inr (StoredIn.child hm hs)
  | cons l rest ih =>
    intro t w p q h
    simp only [insertPath] at h
    cases h with
    | term ht =>
      simp only [TrieNode.terminal] at ht
      exact Or.inr (StoredIn.term ht)
    | wild hw =>
      simp only [TrieNode.wildcard] at hw
      exact Or.inr (StoredIn.wild hw)
    | child hm hs =>
      rename_i lx cx
      simp only [TrieNode.children] at hm
      rcases mem_setChild hm with heq | hold
      · have hceq : cx = insertPath ((findChild l t.children).getD TrieNode.empty) rest w p :=
          congrArg Prod.snd heq
        rw [hceq] at hs
        rcases ih _ w p q hs with h1 | h2
        · exact Or.inl h1
        · cases hf : findChild l t.children with
          | some c0 =>
            rw [hf] at h2
            exact Or.inr (StoredIn.child (findChild_mem hf) (by simpa using h2))
          | none =>
            rw [hf] at h2
            simp only [Option.getD_none] at h2
            exact absurd h2 not_storedIn_empty
      · exact Or.inr (StoredIn.child hold hs)

/-- Whatever is stored after a `trieNode.insert` was either just inserted or
already stored. -/
theorem storedIn_insert {t : TrieNode} {p q : String}
    (h : StoredIn q (t.insert p)) : q = p ∨ StoredIn q t := by
  simp only [TrieNode.insert] at h
  split at h
  · exact storedIn_insertPath _ t true p q h
  · exact storedIn_insertPath _ t false p q h

/-- A successful lookup only ever returns a stored pattern. -/
theorem lookupPath_storedIn :
    ∀ (labels : List String) (t : TrieNode) (p : String),
      lookupPath t labels = some p → StoredIn p t := by
  intro labels
  induction labels with
  | nil =>
    intro t p h
    simp only [lookupPath] at h
    exact StoredIn.term h
  | cons l rest ih =>
    intro t p h
    simp only [lookupPath] at h
    cases hf : findChild l t.children with
    | some c =>
      rw [hf] at h
      simp only [Option.some_bind] at h
      cases hl : lookupPath c rest with
      | some m =>
        rw [hl] at h
        cases h
        exact StoredIn.child (findChild_mem hf) (ih c p hl)
      | none =>
        rw [hl] at h
        exact StoredIn.wild h
    | none =>
      rw [hf] at h
      simp only [Option.none_bind] at h
      exact StoredIn.wild h

/-- After a successful `insertAll`, the source is untouched and everything
stored in the trie is either pre-existing or the lower-casing of one of the
inserted keys. -/
theorem insertAll_ok :
    ∀ (ks : List String) (t t' : Hosts), insertAll t ks = .ok t' →
      t'.source = t.source ∧
      ∀ q, StoredIn q t'.n → StoredIn q t.n ∨ ∃ k ∈ ks, q = strToLower k := by
  intro ks
  induction ks with
  | nil =>
    intro t t' h
    simp only [insertAll] at h
    cases h
    exact ⟨rfl, fun q hq => Or.inl hq⟩
  | cons k rest ih =>
    intro t t' h
    simp only [insertAll] at h
    cases hip : t.insertPattern k with
    | error e =>
      rw [hip] at h
      cases h
    | ok t1 =>
      rw [hip] at h
      obtain ⟨hsrc, hst⟩ := ih t1 t' h
      have ht1 : t1.source = t.source ∧ t1.n = t.n.insert (strToLower k) := by
        simp only [Hosts.insertPattern] at hip
        cases hv : isValidHostPattern (strToLower k) with
        | error e =>
          rw [hv] at hip
          cases hip
        | ok u =>
          rw [hv] at hip
          cases hip
          exact ⟨rfl, rfl⟩
      refine ⟨hsrc.trans ht1.1, ?_⟩
      intro q hq
      rcases hst q hq with h1 | h2
      · rw [ht1.2] at h1
        rcases storedIn_insert h1 with he | hin
        · exact Or.inr ⟨k, List.mem_cons_self _ _, he⟩
        · exact Or.inl hin
      · rcases h2 with ⟨k', hk', he⟩
        exact Or.inr ⟨k', List.mem_cons_of_mem _ hk', he⟩

/-- C9: for a constructed Host Set, `Match` is a total function — a miss is
the normal value `none`, never an error — and a hit returns exactly the
Address Value recorded in the side table under the matched pattern (in the
pure embedding the returned value is a copy by construction, as the Go source
returns a pointer to a fresh copy of the table entry). -/
theorem match_hit_returns_stored_value :
    ∀ (src : List (String × Host)) (t : Hosts), NewHosts src = .ok t → ∀ s,
      t.Match s = none ∨
        ∃ p v, mapFind? p t.source = some v ∧ t.Match s = some v := by
  intro src t hnew s
  have hok := insertAll_ok ((toLowerKeys src).map Prod.fst)
    { n := TrieNode.empty, source := toLowerKeys src } t (by simpa [NewHosts] using hnew)
  cases hc : t.n.contains (strToLower s) with
  | none =>
    left
    simp [Hosts.Match, hc]
  | some m =>
    right
    have hst : StoredIn m t.n :=
      lookupPath_storedIn _ _ _ (by simpa [TrieNode.contains] using hc)
    rcases hok.2 m hst with habs | ⟨k, hk, he⟩
    · exact absurd habs not_storedIn_empty
    · rcases List.mem_map.mp hk with ⟨kv, hkv, hfst⟩
      have hkfix : strToLower kv.1 = kv.1 := toLowerKeys_key_fixed hkv
      have hm : m = kv.1 := by rw [he, ← hfst, hkfix]
      have hfind : ∃ v, mapFind? kv.1 t.source = some v := by
        apply mapFind?_of_mem
        refine ⟨kv.2, ?_⟩
        rw [hok.1]
        simpa using hkv
      rcases hfind with ⟨v, hv⟩
      refine ⟨m, v, by rw [hm]; exact hv, ?_⟩
      simp only [Hosts.Match, hc, hm, hv, Option.getD_some]

theorem match_hit_returns_stored_value_witness :
    (Hosts.mk (.node [("com", .node [("one", .node [] (some "one.com") none)] none none)]
        none none) [("one.com", { IPs := [[9]], Port := 0 })]).Match "one.com" = none ∨
      ∃ p v, mapFind? p (Hosts.mk (.node [("com", .node [("one", .node []
          (some "one.com") none)] none none)] none none)
        [("one.com", { IPs := [[9]], Port := 0 })]).source = some v ∧
        (Hosts.mk (.node [("com", .node [("one", .node [] (some "one.com") none)] none none)]
          none none) [("one.com", { IPs := [[9]], Port := 0 })]).Match "one.com" = some v :=
  match_hit_returns_stored_value [("one.com", { IPs := [[9]], Port := 0 })] _ rfl "one.com"

/-- C10: the empty string is a valid pattern (every part of the grammar is
optional), and Host Set construction from a mapping with the key `""`
succeeds. -/
theorem empty_pattern_accepted :
    isValidHostPattern "" = .ok () ∧
      ∀ V : Host, ∃ t, NewHosts [("", V)] = .ok t :=
  ⟨rfl, fun V => ⟨_, rfl⟩⟩

end HostsGo
